import Mathlib

/-!
A verification development for the `trsh` command-line trash utility
(`src/trsh.py`).  The program is shallowly embedded as pure functions over an
explicit state:

* the filesystem is an association list from resolved absolute path strings to
  entries (a regular file with its content and two permission bits, or a
  directory marker); the holding area lives in the same map under the
  `filesDir` root, exactly as on a real disk;
* the SQLite catalog is two Lean lists (`trash_items` rows and `operations`
  rows) kept in rowid/insertion order, plus the autoincrement counter;
* `uuid.uuid4()` is modelled by a monotone counter drawn from the state, and
  `datetime.now()` by a clock field that the environment may advance between
  calls;
* everything the program prints is collected into a list of structured
  messages, so that error paths ("refusing to delete critical path", access
  errors, dry-run reports, ...) stay observable.

The operations `delete`, `restore`, `purge`, `empty`, `undo` and `verify` are
translated from the source.  Failures of `shutil.move` into the holding area
and of the `INSERT` statement (lines 184-211 of trsh.py) are not modelled: the
environment is assumed to perform them without error, so the two best-effort
compensation branches are unreachable here.  The `config` table and the
read-only commands (`list`, `search`, `stats`, `history`) mutate nothing and
are omitted.
-/

namespace Trsh

/-! ## String primitives

Path strings are compared, tested for prefixes and split at `"/"` characters.
The primitives below work on the underlying character lists so that every
concrete computation reduces inside the kernel. -/

/-- String equality on the underlying character lists. -/
def strEq (s t : String) : Bool := s.data == t.data

/-- Character-list prefix test. -/
def listPre : List Char → List Char → Bool
  | [], _ => true
  | _ :: _, [] => false
  | a :: as, b :: bs => a == b && listPre as bs

/-- `p` is a prefix of `s` (the string form of `str.startswith`). -/
def strIsPre (p s : String) : Bool := listPre p.data s.data

/-- Character-list substring test (SQL `LIKE '%pat%'` on plain patterns). -/
def listSub (pat : List Char) : List Char → Bool
  | [] => pat.isEmpty
  | c :: rest => listPre pat (c :: rest) || listSub pat rest

/-- `pat` occurs inside `s` as a contiguous substring. -/
def strContainsSub (s pat : String) : Bool := listSub pat.data s.data

/-- Number of characters of `s`. -/
def strLen (s : String) : Nat := s.data.length

/-- Drop the first `n` characters of `s`. -/
def strDropLen (s : String) (n : Nat) : String := ⟨s.data.drop n⟩

/-- Decimal digits of `n`, most significant first, with enough fuel. -/
def natDigitsAux : Nat → Nat → List Char
  | 0, _ => []
  | fuel + 1, n =>
    if n = 0 then [] else natDigitsAux fuel (n / 10) ++ [Char.ofNat (48 + n % 10)]

/-- Decimal rendering of a natural number (the model of `str(uuid)` for the
counter-based ids). -/
def natStr (n : Nat) : String := if n = 0 then "0" else ⟨natDigitsAux (n + 1) n⟩

/-- Split a character list at `'/'`. -/
def splitSlashAux : List Char → List Char → List (List Char)
  | [], acc => [acc.reverse]
  | c :: rest, acc =>
    if c == '/' then acc.reverse :: splitSlashAux rest []
    else splitSlashAux rest (c :: acc)

/-! ## Filesystem model -/

/-- One filesystem object: a regular file carries its byte content, a
`readable` bit (can `open(path).read()` succeed) and a `statOk` bit (can
`path.stat()` succeed); directories are bare markers, their contents being the
other keys of the map that extend their path. -/
inductive FSEntry where
  | file (content : List Nat) (readable : Bool) (statOk : Bool)
  | dir
deriving DecidableEq

/-- The filesystem: resolved absolute path string to entry. -/
abbrev FS := List (String × FSEntry)

/-- Lookup of a path, i.e. `path.exists()` and reading the entry. -/
def fsLookup (fs : FS) (p : String) : Option FSEntry :=
  (fs.find? (fun e => strEq e.1 p)).map (·.2)

/-- `path.is_file()`. -/
def isFile (fs : FS) (p : String) : Bool :=
  match fsLookup fs p with
  | some (.file _ _ _) => true
  | _ => false

/-- `path.is_dir()` (used by `shutil.move` to decide whether the destination
is a directory to move into). -/
def isDir (fs : FS) (p : String) : Bool :=
  match fsLookup fs p with
  | some .dir => true
  | _ => false

/-- `path.unlink()`: remove exactly this key. -/
def fsEraseKey (fs : FS) (p : String) : FS :=
  fs.filter (fun e => !(strEq e.1 p))

/-- `k` lies in the subtree rooted at `root` (the root itself included). -/
def underPath (root k : String) : Bool :=
  strEq k root || strIsPre (root ++ "/") k

/-- `shutil.rmtree(path)`: remove the path and every key below it. -/
def fsEraseTree (fs : FS) (p : String) : FS :=
  fs.filter (fun e => !(underPath p e.1))

/-- `Path(p).name`: the final path component. -/
def baseName (p : String) : String :=
  ⟨(splitSlashAux p.data []).getLastD []⟩

/-- Rename every key in the subtree at `src` so that it hangs below `dst`
instead (the effect of a successful `os.rename`/`shutil.move` of a file or of
a whole directory tree). -/
def fsMoveTree (fs : FS) (src dst : String) : FS :=
  fs.map (fun e =>
    if underPath src e.1 then
      (if strEq e.1 src then dst else dst ++ strDropLen e.1 (strLen src), e.2)
    else e)

/-- `shutil.move(src, dst)`: if `dst` exists and is a directory the source is
moved into it under its base name; an existing regular file at the final
destination is overwritten (POSIX `rename`).  The corner case in which the
final destination is an existing directory (where the real call would raise)
is not modelled; no modelled call reaches it. -/
def shutilMove (fs : FS) (src dst : String) : FS :=
  let realDst := if isDir fs dst then dst ++ "/" ++ baseName src else dst
  fsMoveTree (fsEraseKey fs realDst) src realDst

/-! ## Hashes, sizes, critical paths -/

/-- The digest of a byte string.  The SHA-256 of `_calculate_hash` is modelled
by the content itself: every proof below uses only that the digest is a
function of the content, never any property of the concrete map. -/
def shaDigest (c : List Nat) : List Nat := c

/-- The identity tag stored in `file_hash`: `file_<hexdigest>` for a readable
file, `file_<uuid4>` when reading the content raises (the fallback at line 772
of trsh.py), `dir_<uuid4>` for a directory.  Tags of different constructors
are never equal as strings, which the inductive encoding mirrors. -/
inductive FileHash where
  | fileSha (digest : List Nat)
  | fileErr (u : Nat)
  | dirTag (u : Nat)
deriving DecidableEq

/-- `file_hash.startswith("file_")`. -/
def FileHash.isFileTagged : FileHash → Bool
  | .fileSha _ => true
  | .fileErr _ => true
  | .dirTag _ => false

namespace Trash

/-- The holding root `<trash_dir>/files` (default trash dir `~/.trashbin`). -/
def filesDir : String := "/home/user/.trashbin/files"

/-- `Trash._is_critical_path`: the fixed critical root list of line 743. -/
def criticalRoots : List String :=
  ["/", "/bin", "/sbin", "/usr", "/etc", "/var", "/boot", "/sys", "/proc", "/dev"]

/-- `Trash._is_critical_path(path)`: the resolved path string equals a root or
starts with the root followed by `"/"` (for the root `"/"` that prefix is the
literal `"//"`). -/
def is_critical_path (p : String) : Bool :=
  criticalRoots.any (fun c => strEq p c || strIsPre (c ++ "/") p)

/-- `Trash._get_path_size`: a file answers `stat().st_size`, which raises when
its `statOk` bit is off; anything else is summed over the regular files below
it, silently skipping entries whose `stat` fails (lines 748-760). -/
def get_path_size (fs : FS) (p : String) : Except Unit Nat :=
  match fsLookup fs p with
  | some (.file c _ statOk) => if statOk then .ok c.length else .error ()
  | _ =>
    .ok ((fs.filter (fun e => strIsPre (p ++ "/") e.1)).foldr
      (fun e acc =>
        match e.2 with
        | .file c _ true => c.length + acc
        | _ => acc) 0)

/-- `Trash._calculate_hash`: a readable file yields the content digest with
the `file_` prefix; an unreadable file yields a fresh `file_<uuid4>` tag (the
internal `except` of lines 771-772 — note that this branch returns normally
instead of raising); a directory yields a fresh `dir_<uuid4>` tag. -/
def calculate_hash (fs : FS) (p : String) (freshTag : Nat) : FileHash :=
  match fsLookup fs p with
  | some (.file c readable _) =>
    if readable then .fileSha (shaDigest c) else .fileErr freshTag
  | _ => .dirTag freshTag

end Trash

/-! ## Catalog model -/

/-- One `trash_items` row (the unused `mime_type` and `compressed` columns are
omitted). -/
structure TrashRow where
  id : Nat
  original_path : String
  trashed_path : String
  deletion_time : Nat
  file_size : Nat
  file_hash : FileHash
  deletion_reason : Option String
  tags : List String
  restored : Bool
deriving DecidableEq

/-- One `operations` row. -/
structure OperationRow where
  id : Nat
  operation_type : String
  timestamp : Nat
  details : List Nat
  undone : Bool
deriving DecidableEq

/-- `ORDER BY deletion_time ASC`.  The insertion sort below is stable, so rows
with equal times keep their rowid (insertion) order, matching an ascending
scan of the `idx_deletion_time` index. -/
def timeLE (a b : TrashRow) : Prop := a.deletion_time ≤ b.deletion_time

instance : DecidableRel timeLE := fun a b => by unfold timeLE; infer_instance

instance : IsTotal TrashRow timeLE :=
  ⟨fun a b => by unfold timeLE; omega⟩

instance : IsTrans TrashRow timeLE :=
  ⟨fun a b c h h' => by unfold timeLE at *; omega⟩

/-- `ORDER BY deletion_time DESC` for `restore`. -/
def timeGE (a b : TrashRow) : Prop := b.deletion_time ≤ a.deletion_time

instance : DecidableRel timeGE := fun a b => by unfold timeGE; infer_instance

instance : IsTotal TrashRow timeGE :=
  ⟨fun a b => by unfold timeGE; omega⟩

instance : IsTrans TrashRow timeGE :=
  ⟨fun a b c h h' => by unfold timeGE at *; omega⟩

/-- `ORDER BY timestamp DESC` over `operations`: newest first, rows with equal
timestamps ordered by descending rowid (a descending scan of the
`idx_timestamp` index visits equal keys in that order). -/
def opNewer (a b : OperationRow) : Prop :=
  b.timestamp < a.timestamp ∨ (b.timestamp = a.timestamp ∧ b.id ≤ a.id)

instance : DecidableRel opNewer := fun a b => by unfold opNewer; infer_instance

instance : IsTotal OperationRow opNewer := by
  constructor
  intro a b
  unfold opNewer
  omega

instance : IsTrans OperationRow opNewer := by
  constructor
  intro a b c h h'
  unfold opNewer at *
  omega

/-- The whole mutable world of one `Trash` instance: filesystem, the two
catalog tables in rowid order, the autoincrement counter of `operations`, the
uuid source and the clock. -/
structure TrashState where
  fs : FS
  items : List TrashRow
  ops : List OperationRow
  nextOpId : Nat
  uuid : Nat
  now : Nat
deriving DecidableEq

/-- Everything the program prints, as structured messages. -/
inductive Msg where
  | errNotFound (p : String)
  | errCritical (p : String)
  | errAccess (p : String)
  | infoDuplicate (saved : Nat)
  | dryWouldDelete (p : String)
  | okDeleted (p : String)
  | errInteractive
  | errNoPattern
  | errNoMatch (pat : String)
  | dryWouldRestore (src tgt : String)
  | warnTargetExists (t : String)
  | warnMissingInTrash (t : String)
  | okRestored (t : String)
  | infoNoOps
  | warnFailedRestore (p : String)
  | okUndone (n : Nat)
  | warnCannotUndo (t : String)
  | infoTrashEmpty
  | dryWouldEmpty (n size : Nat)
  | infoCancelled
  | okEmptied (n size : Nat)
  | infoWithinQuota (total : Nat)
  | errNoPolicy
  | infoNothingToPurge
  | dryWouldPurge (n size : Nat)
  | okPurged (n size : Nat)
  | verifyReport (orphans missing : Nat)
deriving DecidableEq

namespace Trash

/-! ## delete (trsh.py lines 130-217) -/

/-- `Trash.delete(filepath, tags, reason, dry_run)`.  Returns the boolean
result, the new state and the printed messages.  The input path is taken to be
already canonical (`Path.resolve` is the identity of the model).  One fresh
uuid is drawn for the hash tag (used only by the fallback and directory
branches) and one for the item id, in source order; the model draws the first
eagerly even when the digest branch ignores it, which only advances the
counter. -/
def delete (st : TrashState) (filepath : String) (tags : List String)
    (reason : Option String) (dryRun : Bool) : Bool × TrashState × List Msg :=
  if (fsLookup st.fs filepath).isNone then
    (false, st, [.errNotFound filepath])
  else if is_critical_path filepath then
    (false, st, [.errCritical filepath])
  else
    match get_path_size st.fs filepath with
    | .error _ => (false, st, [.errAccess filepath])
    | .ok fileSize =>
      let fileHash := calculate_hash st.fs filepath st.uuid
      let st1 : TrashState := { st with uuid := st.uuid + 1 }
      let existing :=
        st1.items.find? (fun r => r.file_hash == fileHash && r.restored == false)
      if existing.isSome && fileHash.isFileTagged then
        if dryRun then (true, st1, [.infoDuplicate fileSize])
        else
          let fs2 :=
            if isFile st1.fs filepath then fsEraseKey st1.fs filepath
            else fsEraseTree st1.fs filepath
          (true, { st1 with fs := fs2 }, [.infoDuplicate fileSize])
      else
        let itemId := st1.uuid
        let st2 : TrashState := { st1 with uuid := st1.uuid + 1 }
        let trashedPath := filesDir ++ "/" ++ natStr itemId ++ "/" ++ baseName filepath
        if dryRun then (true, st2, [.dryWouldDelete filepath])
        else
          let fs2 := fsMoveTree st2.fs filepath trashedPath
          let row : TrashRow :=
            { id := itemId, original_path := filepath, trashed_path := trashedPath,
              deletion_time := st2.now, file_size := fileSize, file_hash := fileHash,
              deletion_reason := reason, tags := tags, restored := false }
          let opRec : OperationRow :=
            { id := st2.nextOpId, operation_type := "delete", timestamp := st2.now,
              details := [itemId], undone := false }
          (true,
           { st2 with
             fs := fs2
             items := st2.items ++ [row]
             ops := st2.ops ++ [opRec]
             nextOpId := st2.nextOpId + 1 },
           [.okDeleted filepath])

/-! ## restore (trsh.py lines 219-284) -/

/-- The effective restore target: `<output>/<basename>` when an alternate
output directory was supplied, the original path otherwise. -/
def targetOf (output : Option String) (item : TrashRow) : String :=
  match output with
  | some o => o ++ "/" ++ baseName item.original_path
  | none => item.original_path

/-- The rows a restore call works through: non-restored rows whose original
path contains the pattern, newest first. -/
def restoreMatches (st : TrashState) (pat : String) : List TrashRow :=
  List.insertionSort timeGE
    (st.items.filter (fun r => strContainsSub r.original_path pat && !r.restored))

/-- The body of the per-item loop of `Trash.restore`.  A missing holding copy
prunes the stale row; an occupied target is skipped with a warning; otherwise
the item is moved back and its row marked restored.  The per-item
`shutil.move` is assumed not to fail (its `except` branch only reports and
skips). -/
def restoreStep (output : Option String) (dryRun : Bool)
    (acc : TrashState × Nat × List Msg) (item : TrashRow) :
    TrashState × Nat × List Msg :=
  let (st, count, msgs) := acc
  let targetPath := targetOf output item
  if dryRun then
    (st, count, msgs ++ [.dryWouldRestore item.original_path targetPath])
  else if (fsLookup st.fs targetPath).isSome then
    (st, count, msgs ++ [.warnTargetExists targetPath])
  else if (fsLookup st.fs item.trashed_path).isNone then
    ({ st with items := st.items.filter (fun r => !(r.id == item.id)) }, count,
     msgs ++ [.warnMissingInTrash item.trashed_path])
  else
    let fs2 := shutilMove st.fs item.trashed_path targetPath
    let items2 :=
      st.items.map (fun r => if r.id == item.id then { r with restored := true } else r)
    ({ st with fs := fs2, items := items2 }, count + 1, msgs ++ [.okRestored targetPath])

/-- `Trash.restore(pattern, output, dry_run, interactive)`: returns the count
of items actually restored, the new state and the messages. -/
def restore (st : TrashState) (pattern : Option String) (output : Option String)
    (dryRun : Bool) (interactive : Bool) : Nat × TrashState × List Msg :=
  if interactive then (0, st, [.errInteractive])
  else
    match pattern with
    | none => (0, st, [.errNoPattern])
    | some pat =>
      let ms := restoreMatches st pat
      if ms.isEmpty then (0, st, [.errNoMatch pat])
      else
        let (st', count, msgs) := ms.foldl (restoreStep output dryRun) (st, 0, [])
        (count, st', msgs)

/-! ## purge (trsh.py lines 439-526) -/

/-- The age-based candidate list: non-restored rows strictly older than the
cutoff `now - older_than` days, oldest first. -/
def ageSelect (st : TrashState) (olderThan : Nat) : List TrashRow :=
  let cutoff : Int := (st.now : Int) - (olderThan : Int) * 86400
  List.insertionSort timeLE
    (st.items.filter (fun r => decide ((r.deletion_time : Int) < cutoff) && !r.restored))

/-- All non-restored rows, oldest first (the quota branch scan). -/
def quotaRows (st : TrashState) : List TrashRow :=
  List.insertionSort timeLE (st.items.filter (fun r => !r.restored))

/-- The greedy quota loop of lines 472-478: walk the rows oldest first and
keep selecting while the remaining total still exceeds the quota. -/
def selectByQuota (rows : List TrashRow) (current quota : Nat) : List TrashRow :=
  match rows with
  | [] => []
  | r :: rest =>
    if current ≤ quota then []
    else r :: selectByQuota rest (current - r.file_size) quota

/-- `SELECT COALESCE(SUM(file_size), 0) FROM trash_items WHERE restored = 0`. -/
def nonRestoredSize (items : List TrashRow) : Nat :=
  ((items.filter (fun r => !r.restored)).map (·.file_size)).sum

/-- The body of the per-item purge loop: physically remove the holding copy if
it still exists (unlink a file, `rmtree` a directory), then delete the catalog
row and count the item.  No per-item failure is modelled, so every candidate
is counted, exactly as in a run in which every removal succeeds. -/
def purgeStep (acc : TrashState × Nat) (item : TrashRow) : TrashState × Nat :=
  let (st, n) := acc
  let fs2 :=
    if (fsLookup st.fs item.trashed_path).isSome then
      if isFile st.fs item.trashed_path then fsEraseKey st.fs item.trashed_path
      else fsEraseTree st.fs item.trashed_path
    else st.fs
  ({ st with
     fs := fs2
     items := st.items.filter (fun r => !(r.id == item.id)) }, n + 1)

/-- Run the selected candidates through dry-run reporting or actual removal
(lines 484-526). -/
def purgeRun (st : TrashState) (sel : List TrashRow) (dryRun : Bool) :
    TrashState × List Msg :=
  if sel.isEmpty then (st, [.infoNothingToPurge])
  else
    let total := (sel.map (·.file_size)).sum
    if dryRun then (st, [.dryWouldPurge sel.length total])
    else
      let (st', n) := sel.foldl purgeStep (st, 0)
      (st', [.okPurged n total])

/-- `Trash.purge(older_than, size_quota, dry_run)`.  The dispatch mirrors the
Python truthiness of `if older_than:` and `elif size_quota:`: a missing value
and the value `0` both fall through, ending in the "specify a policy" error.
The quota is in whole gigabytes, `quota_bytes = GB * 2^30`. -/
def purge (st : TrashState) (olderThan : Option Nat) (sizeQuota : Option Nat)
    (dryRun : Bool) : TrashState × List Msg :=
  if olderThan.getD 0 != 0 then
    purgeRun st (ageSelect st (olderThan.getD 0)) dryRun
  else if sizeQuota.getD 0 != 0 then
    let total := nonRestoredSize st.items
    let quotaBytes := sizeQuota.getD 0 * 1073741824
    if total ≤ quotaBytes then (st, [.infoWithinQuota total])
    else purgeRun st (selectByQuota (quotaRows st) total quotaBytes) dryRun
  else (st, [.errNoPolicy])

/-! ## empty (trsh.py lines 396-437) -/

/-- `Trash.empty(force, dry_run)`: the interactive confirmation of line 420 is
modelled by the `confirmYes` argument (the response the caller would type).
On the destructive path the whole `files` subtree is removed and recreated and
every non-restored row is deleted in one statement. -/
def empty (st : TrashState) (force dryRun confirmYes : Bool) :
    TrashState × List Msg :=
  let nonRestored := st.items.filter (fun r => !r.restored)
  let count := nonRestored.length
  let total := (nonRestored.map (·.file_size)).sum
  if count == 0 then (st, [.infoTrashEmpty])
  else if dryRun then (st, [.dryWouldEmpty count total])
  else if !force && !confirmYes then (st, [.infoCancelled])
  else
    ({ st with
       fs := fsEraseTree st.fs filesDir
       items := st.items.filter (fun r => r.restored) }, [.okEmptied count total])

/-! ## undo (trsh.py lines 579-629) -/

/-- The operations an undo call processes: the most recent `count` non-undone
rows, newest first. -/
def undoSelect (st : TrashState) (count : Nat) : List OperationRow :=
  (List.insertionSort opNewer (st.ops.filter (fun o => !o.undone))).take count

/-- The per-item body of the undo loop for a `delete` operation: if the row
still exists, move the holding copy back to the original path (parents are
created as needed, an existing regular file at the destination is overwritten
by `shutil.move`) and mark the row restored; a missing holding copy makes the
move raise, which the `except` branch turns into a warning. -/
def undoItemStep (acc : TrashState × Nat × List Msg) (itemId : Nat) :
    TrashState × Nat × List Msg :=
  let (st, n, msgs) := acc
  match st.items.find? (fun r => r.id == itemId) with
  | none => (st, n, msgs)
  | some item =>
    if (fsLookup st.fs item.trashed_path).isNone then
      (st, n, msgs ++ [.warnFailedRestore item.original_path])
    else
      let fs2 := shutilMove st.fs item.trashed_path item.original_path
      let items2 :=
        st.items.map (fun r => if r.id == itemId then { r with restored := true } else r)
      ({ st with fs := fs2, items := items2 }, n + 1, msgs)

/-- One operation of the undo loop: a `delete` works through its item ids; a
`purge` or `empty` only warns; every processed operation is marked undone
regardless of the outcome. -/
def undoOpStep (acc : TrashState × List Msg) (op : OperationRow) :
    TrashState × List Msg :=
  let (st, msgs) := acc
  let (st1, msgs1) :=
    if op.operation_type == "delete" then
      let (st', n, ms) := op.details.foldl undoItemStep (st, 0, [])
      (st', msgs ++ ms ++ [.okUndone n])
    else if op.operation_type == "purge" || op.operation_type == "empty" then
      (st, msgs ++ [.warnCannotUndo op.operation_type])
    else (st, msgs)
  ({ st1 with
     ops := st1.ops.map (fun o => if o.id == op.id then { o with undone := true } else o) },
   msgs1)

/-- `Trash.undo(count)`. -/
def undo (st : TrashState) (count : Nat) : TrashState × List Msg :=
  let sel := undoSelect st count
  if sel.isEmpty then (st, [.infoNoOps])
  else sel.foldl undoOpStep (st, [])

/-! ## verify (trsh.py lines 657-702) -/

/-- The id component of a holding-area path: for `<filesDir>/<id>/...` the
`<id>` part (what `files_dir.iterdir()` sees as a subdirectory name). -/
def holdingIdOf (k : String) : Option String :=
  if strIsPre (filesDir ++ "/") k then
    some ⟨(strDropLen k (strLen filesDir + 1)).data.takeWhile (fun c => !(c == '/'))⟩
  else none

/-- `Trash.verify(repair)`: orphan holding subdirectories (present on disk, no
non-restored row) are removed in repair mode; non-restored rows whose holding
path no longer exists (checked after the orphan sweep, as in the source) are
deleted from the catalog in repair mode. -/
def verify (st : TrashState) (repair : Bool) : TrashState × List Msg :=
  let dbIds := (st.items.filter (fun r => !r.restored)).map (fun r => natStr r.id)
  let diskIds := (st.fs.filterMap (fun e => holdingIdOf e.1)).dedup
  let orphaned := diskIds.filter (fun i => !(dbIds.any (fun d => strEq d i)))
  let fs2 :=
    if repair then
      orphaned.foldl (fun fs i => fsEraseTree fs (filesDir ++ "/" ++ i)) st.fs
    else st.fs
  let missing :=
    (st.items.filter (fun r => !r.restored)).filter
      (fun r => (fsLookup fs2 r.trashed_path).isNone)
  let items2 :=
    if repair then st.items.filter (fun r => !(missing.any (fun m => m.id == r.id)))
    else st.items
  ({ st with fs := fs2, items := items2 }, [.verifyReport orphaned.length missing.length])

/-- Modelled from the spec: a resolved absolute path "equals or is nested
under" one of the critical roots, where nesting is filesystem descendancy (a
path is nested under `/` exactly when it is an absolute path other than `/`
itself).  This is the spec reading of the protected set, to be compared with
`is_critical_path`, the check the source performs. -/
def specProtectedPath (p : String) : Bool :=
  criticalRoots.any (fun c =>
    strEq p c ||
      (if strEq c "/" then strIsPre "/" p && !(strEq p "/") else strIsPre (c ++ "/") p))

end Trash

/-! ## Helpers for the statements below -/

/-- Lookup of a catalog row by id: the first row with that id, as
`SELECT * FROM trash_items WHERE id = ?` with `fetchone()`. -/
def rowById (items : List TrashRow) (i : Nat) : Option TrashRow :=
  items.find? (fun r => r.id == i)

/-- Mark an operation row undone when its id occurs in `sel`. -/
def markUndoneIfSelected (sel : List OperationRow) (o : OperationRow) : OperationRow :=
  if sel.any (fun s => o.id == s.id) then { o with undone := true } else o

/-- The part of an operation row that undo never changes (everything except
the `undone` flag). -/
def opRecord (o : OperationRow) : Nat × String × Nat × List Nat :=
  (o.id, o.operation_type, o.timestamp, o.details)

/-- Every row of `l'` is a row of `l`, possibly with its restored flag newly
set from false to true — the only kind of in-place update the program ever
performs on a catalog row. -/
def rowsFromSetTrue (l l' : List TrashRow) : Prop :=
  ∀ r' ∈ l', r' ∈ l ∨ ∃ x ∈ l, x.restored = false ∧ r' = { x with restored := true }

/-! ## Concrete states used by witnesses and counterexamples -/

/-- A single ordinary user file, empty trash. -/
def egFile1 : TrashState :=
  { fs := [("/home/user/notes.txt", .file [7] true true)]
    items := []
    ops := []
    nextOpId := 1
    uuid := 0
    now := 50 }

/-- A catalog row whose content hash `file_<digest of [1, 2]>` is still
present (non-restored) in the trash. -/
def egDupRow : TrashRow :=
  { id := 42
    original_path := "/home/user/old.txt"
    trashed_path := Trash.filesDir ++ "/42/old.txt"
    deletion_time := 10
    file_size := 2
    file_hash := .fileSha [1, 2]
    deletion_reason := none
    tags := []
    restored := false }

/-- A live file whose content matches `egDupRow`, next to the existing
holding copy. -/
def egDupSt : TrashState :=
  { fs := [("/home/user/a.txt", .file [1, 2] true true),
           (Trash.filesDir ++ "/42/old.txt", .file [1, 2] true true)]
    items := [egDupRow]
    ops := []
    nextOpId := 1
    uuid := 100
    now := 60 }

/-- Two live files with byte-identical content `[3, 4]`, empty trash (the
setup of the repository test `test_deduplication`). -/
def egTwoSame : TrashState :=
  { fs := [("/home/user/file1.txt", .file [3, 4] true true),
           ("/home/user/duplicate.txt", .file [3, 4] true true)]
    items := []
    ops := []
    nextOpId := 1
    uuid := 0
    now := 100 }

/-- The state after deleting `file1.txt` from `egTwoSame`. -/
def egSame1 : TrashState :=
  (Trash.delete egTwoSame "/home/user/file1.txt" [] none false).2.1

/-- The state after deleting both identical files from `egTwoSame`. -/
def egSame2 : TrashState :=
  (Trash.delete egSame1 "/home/user/duplicate.txt" [] none false).2.1

/-- Two live files `a.txt` and `b.txt` with the given contents, empty trash,
clock at 100. -/
def abStart (ca cb : List Nat) : TrashState :=
  { fs := [("/home/user/a.txt", .file ca true true),
           ("/home/user/b.txt", .file cb true true)]
    items := []
    ops := []
    nextOpId := 1
    uuid := 0
    now := 100 }

/-- The state after deleting `a.txt` from `abStart`, with the clock advanced
by one second before the next call. -/
def abAfterA (ca cb : List Nat) : TrashState :=
  { (Trash.delete (abStart ca cb) "/home/user/a.txt" [] none false).2.1 with
    now := 101 }

/-- The state after deleting `a.txt` and then `b.txt`. -/
def abAfterB (ca cb : List Nat) : TrashState :=
  (Trash.delete (abAfterA ca cb) "/home/user/b.txt" [] none false).2.1

/-- One old non-restored item (deleted at time 0, clock far later), with its
holding copy on disk. -/
def egOld : TrashState :=
  { fs := [(Trash.filesDir ++ "/3/junk.txt", .file [1, 2, 3] true true)]
    items := [{ id := 3
                original_path := "/home/user/junk.txt"
                trashed_path := Trash.filesDir ++ "/3/junk.txt"
                deletion_time := 0
                file_size := 3
                file_hash := .fileSha [1, 2, 3]
                deletion_reason := none
                tags := []
                restored := false }]
    ops := []
    nextOpId := 1
    uuid := 4
    now := 10000000 }

/-- A file whose content cannot be read (permission denied on `open`) but
whose `stat` succeeds. -/
def egUnreadable : TrashState :=
  { fs := [("/home/user/secret.dat", .file [1, 2, 3] false true)]
    items := []
    ops := []
    nextOpId := 1
    uuid := 0
    now := 5 }

/-- A file whose `stat` raises a permission error. -/
def egStatFails : TrashState :=
  { fs := [("/home/user/odd.dat", .file [1, 2, 3] true false)]
    items := []
    ops := []
    nextOpId := 1
    uuid := 0
    now := 5 }

/-- A trashed item whose original path is meanwhile occupied again by a
different file, together with the delete operation that trashed it. -/
def egConflictRow : TrashRow :=
  { id := 7
    original_path := "/home/user/doc.txt"
    trashed_path := Trash.filesDir ++ "/7/doc.txt"
    deletion_time := 30
    file_size := 1
    file_hash := .fileSha [5]
    deletion_reason := none
    tags := []
    restored := false }

/-- State for the overwrite comparison: the trashed copy holds `[5]`, a new
file `[6]` sits at the original path. -/
def egConflict : TrashState :=
  { fs := [("/home/user/doc.txt", .file [6] true true),
           (Trash.filesDir ++ "/7/doc.txt", .file [5] true true)]
    items := [egConflictRow]
    ops := [{ id := 1, operation_type := "delete", timestamp := 30, details := [7],
              undone := false }]
    nextOpId := 2
    uuid := 8
    now := 40 }

/-- Two non-restored items of sizes 2^30 and 5 bytes, deleted at times 10 and
20, both with holding copies: total size exceeds a 1 GB quota. -/
def egQuota : TrashState :=
  { fs := [(Trash.filesDir ++ "/1/big.bin", .file [] true true),
           (Trash.filesDir ++ "/2/small.txt", .file [1, 2, 3, 4, 5] true true)]
    items := [{ id := 1
                original_path := "/home/user/big.bin"
                trashed_path := Trash.filesDir ++ "/1/big.bin"
                deletion_time := 10
                file_size := 1073741824
                file_hash := .fileSha [0]
                deletion_reason := none
                tags := []
                restored := false },
              { id := 2
                original_path := "/home/user/small.txt"
                trashed_path := Trash.filesDir ++ "/2/small.txt"
                deletion_time := 20
                file_size := 5
                file_hash := .fileSha [1, 2, 3, 4, 5]
                deletion_reason := none
                tags := []
                restored := false }]
    ops := []
    nextOpId := 1
    uuid := 3
    now := 100 }

/-- A row that has already been restored (its holding copy is gone). -/
def egDoneRow : TrashRow :=
  { id := 1
    original_path := "/home/user/done.txt"
    trashed_path := Trash.filesDir ++ "/1/done.txt"
    deletion_time := 10
    file_size := 4
    file_hash := .fileSha [4]
    deletion_reason := none
    tags := []
    restored := true }

/-- A restored row (the holding copy is gone) next to a non-restored one:
used to check that the restored flag survives every operation. -/
def egMixed : TrashState :=
  { fs := [(Trash.filesDir ++ "/2/keep.txt", .file [8] true true)]
    items := [egDoneRow,
              { id := 2
                original_path := "/home/user/keep.txt"
                trashed_path := Trash.filesDir ++ "/2/keep.txt"
                deletion_time := 20
                file_size := 1
                file_hash := .fileSha [8]
                deletion_reason := none
                tags := []
                restored := false }]
    ops := [{ id := 1, operation_type := "delete", timestamp := 20, details := [2],
              undone := false }]
    nextOpId := 2
    uuid := 3
    now := 100 }

/-! # Helper lemmas -/

theorem find?_filter_none {α} (keep q : α → Bool)
    (h : ∀ a, q a = true → keep a = false) :
    ∀ l : List α, (l.filter keep).find? q = none := by
  intro l
  induction l with
  | nil => rfl
  | cons x xs ih =>
    cases hk : keep x with
    | false => simpa [List.filter_cons, hk] using ih
    | true =>
      have hq : q x = false := by
        cases hqx : q x with
        | false => rfl
        | true => rw [h x hqx] at hk; cases hk
      simpa [List.filter_cons, hk, List.find?_cons, hq] using ih

theorem fsLookup_eraseKey_self (fs : FS) (p : String) :
    fsLookup (fsEraseKey fs p) p = none := by
  unfold fsLookup fsEraseKey
  rw [find?_filter_none _ _ (fun a ha => by rw [ha]; simp)]
  rfl

theorem fsLookup_eraseTree_self (fs : FS) (p : String) :
    fsLookup (fsEraseTree fs p) p = none := by
  unfold fsLookup fsEraseTree
  rw [find?_filter_none _ _ (fun a ha => by unfold underPath; rw [ha]; simp)]
  rfl

/-! # Claim C1 -/

/-- Claim C1 (amended): the protected-path gate of `delete` triggers exactly
on the paths accepted by `_is_critical_path` — those equal to a critical root
or extending a critical root by a path separator as a string prefix (for the
root `/` that means only `/` itself and strings starting with `//`, not every
absolute path).  When the gate condition holds, delete fails and leaves the
state untouched; when it does not hold, the gate message is never emitted, so
an ordinary user path never trips the gate. -/
theorem C1_protected_gate (st : TrashState) (p : String) (tags : List String)
    (reason : Option String) (dryRun : Bool) :
    (Trash.is_critical_path p = true →
      (Trash.delete st p tags reason dryRun).1 = false ∧
      (Trash.delete st p tags reason dryRun).2.1 = st) ∧
    (Trash.is_critical_path p = false →
      ∀ q, Msg.errCritical q ∉ (Trash.delete st p tags reason dryRun).2.2) := by
  constructor
  · intro h
    unfold Trash.delete
    cases hex : (fsLookup st.fs p).isNone <;> simp [hex, h]
  · intro h q
    unfold Trash.delete
    cases hex : (fsLookup st.fs p).isNone
    · simp only [hex, h, Bool.false_eq_true, if_false]
      cases hsz : Trash.get_path_size st.fs p
      · simp
      · simp only []
        split
        · split <;> simp
        · split <;> simp
    · simp [hex]

/-- Claim C1, counterexample to the claim as stated: `/home/user/notes.txt`
is nested under the listed critical root `/` in the filesystem sense, yet the
delete succeeds and mutates both the filesystem and the catalog — the gate
only blocks string-prefix matches of the roots. -/
theorem C1_counterexample :
    Trash.specProtectedPath "/home/user/notes.txt" = true ∧
    Trash.is_critical_path "/home/user/notes.txt" = false ∧
    (Trash.delete egFile1 "/home/user/notes.txt" [] none false).1 = true ∧
    (Trash.delete egFile1 "/home/user/notes.txt" [] none false).2.1.items ≠ egFile1.items ∧
    (Trash.delete egFile1 "/home/user/notes.txt" [] none false).2.1.fs ≠ egFile1.fs := by
  decide

/-- Claim C1, witness: deleting `/bin` fails and changes nothing. -/
theorem C1_witness :
    (Trash.delete egFile1 "/bin" [] none false).1 = false ∧
    (Trash.delete egFile1 "/bin" [] none false).2.1 = egFile1 :=
  (C1_protected_gate egFile1 "/bin" [] none false).1 rfl

/-! # Claim C2 -/

/-- Claim C2: a non-dry-run delete whose computed hash is `file_`-tagged and
already carried by a non-restored catalog row removes the source from disk,
returns success, inserts no catalog row, adds nothing to the filesystem (in
particular no new holding copy), and appends no operation-log entry. -/
theorem C2_dedup_delete (st : TrashState) (p : String) (tags : List String)
    (reason : Option String) (sz : Nat)
    (hex : (fsLookup st.fs p).isNone = false)
    (hcrit : Trash.is_critical_path p = false)
    (hsz : Trash.get_path_size st.fs p = .ok sz)
    (htag : (Trash.calculate_hash st.fs p st.uuid).isFileTagged = true)
    (hdup : (st.items.find? (fun r =>
        r.file_hash == Trash.calculate_hash st.fs p st.uuid &&
          r.restored == false)).isSome = true) :
    (Trash.delete st p tags reason false).1 = true ∧
    (Trash.delete st p tags reason false).2.1.items = st.items ∧
    (Trash.delete st p tags reason false).2.1.ops = st.ops ∧
    fsLookup (Trash.delete st p tags reason false).2.1.fs p = none ∧
    List.Sublist (Trash.delete st p tags reason false).2.1.fs st.fs ∧
    (Trash.delete st p tags reason false).2.2 = [Msg.infoDuplicate sz] := by
  unfold Trash.delete
  simp only [hex, hcrit, hsz, Bool.false_eq_true, if_false, reduceIte]
  simp only [htag, hdup, Bool.and_self, if_true, Bool.true_and, Bool.and_true,
    Bool.true_eq_false]
  refine ⟨trivial, trivial, trivial, ?_, ?_, trivial⟩
  · cases hf : isFile st.fs p <;>
      simp [hf, fsLookup_eraseKey_self, fsLookup_eraseTree_self]
  · cases hf : isFile st.fs p <;> simp [hf, fsEraseKey, fsEraseTree, List.filter_sublist]

/-- Claim C2, witness: deleting `/home/user/a.txt`, whose content `[1, 2]`
matches the non-restored row `egDupRow`, unlinks the source and touches
neither catalog table. -/
theorem C2_witness :
    (Trash.delete egDupSt "/home/user/a.txt" [] none false).1 = true ∧
    (Trash.delete egDupSt "/home/user/a.txt" [] none false).2.1.items = egDupSt.items ∧
    (Trash.delete egDupSt "/home/user/a.txt" [] none false).2.1.ops = egDupSt.ops ∧
    fsLookup (Trash.delete egDupSt "/home/user/a.txt" [] none false).2.1.fs
      "/home/user/a.txt" = none ∧
    List.Sublist (Trash.delete egDupSt "/home/user/a.txt" [] none false).2.1.fs
      egDupSt.fs ∧
    (Trash.delete egDupSt "/home/user/a.txt" [] none false).2.2 =
      [Msg.infoDuplicate 2] :=
  C2_dedup_delete egDupSt "/home/user/a.txt" [] none 2 rfl rfl rfl rfl rfl

/-! # Claim C6 -/

/-- Claim C6: behaviour of the purge boundary at the failing input.  With one
non-restored item in the trash, `purge(older_than=0)` answers the "specify a
policy" error and removes nothing — `if older_than:` treats `0` like a missing
argument — although the repository test asserts it purges everything.  For
contrast, `purge(older_than=1)` does remove the (115-day-old) item, and
`purge(older_than=200)`, which exceeds the age of every item, removes
nothing, as the second half of the claim states. -/
theorem C6_purge_zero_behaviour :
    Trash.purge egOld (some 0) none false = (egOld, [Msg.errNoPolicy]) ∧
    (egOld.items.filter (fun r => !r.restored)).length = 1 ∧
    (Trash.purge egOld (some 1) none false).1.items = [] ∧
    Trash.purge egOld (some 200) none false = (egOld, [Msg.infoNothingToPurge]) := by
  decide

/-! # Claim C7 -/

/-- Claim C7 (amended): when resolving or sizing the source raises an access
error (`stat` fails), the whole delete aborts with a failure result and the
state — source, holding area and catalog — is unchanged.  A permission
failure while reading the content for hashing does not abort: the hash falls
back to a fresh `file_`-tagged tag and the delete proceeds. -/
theorem C7_access_abort (st : TrashState) (p : String) (tags : List String)
    (reason : Option String) (dryRun : Bool)
    (hex : (fsLookup st.fs p).isNone = false)
    (hcrit : Trash.is_critical_path p = false)
    (herr : Trash.get_path_size st.fs p = .error ()) :
    Trash.delete st p tags reason dryRun = (false, st, [Msg.errAccess p]) := by
  unfold Trash.delete
  simp [hex, hcrit, herr]

/-- Claim C7, counterexample to the claim as stated: the content of
`/home/user/secret.dat` cannot be read (the streaming hash hits a permission
error), yet the delete does not abort — it succeeds, moves the source into
the holding area and records a row whose hash is the `file_<uuid4>`
fallback. -/
theorem C7_counterexample :
    fsLookup egUnreadable.fs "/home/user/secret.dat" =
      some (.file [1, 2, 3] false true) ∧
    (Trash.delete egUnreadable "/home/user/secret.dat" [] none false).1 = true ∧
    fsLookup (Trash.delete egUnreadable "/home/user/secret.dat" [] none false).2.1.fs
      "/home/user/secret.dat" = none ∧
    (Trash.delete egUnreadable "/home/user/secret.dat" [] none false).2.1.items.map
      (fun r => r.file_hash) = [.fileErr 0] := by
  decide

/-- Claim C7, witness: a file whose `stat` raises makes the delete abort with
the access error and an unchanged state. -/
theorem C7_witness :
    Trash.delete egStatFails "/home/user/odd.dat" [] none false =
      (false, egStatFails, [Msg.errAccess "/home/user/odd.dat"]) :=
  C7_access_abort egStatFails "/home/user/odd.dat" [] none false rfl rfl rfl

/-! # Claim C3 -/

/-- Claim C3: behaviour at the failing input of the repository test
`test_deduplication`.  Both deletes of the byte-identical files succeed, the
second source is unlinked and only one holding copy exists, but the catalog
holds a single row with the shared `file_` hash — not the two rows the claim
(and the test assertion `assertEqual(len(rows), 2)`) expects, because the
dedup branch returns before `INSERT`. -/
theorem C3_dedup_row_count :
    (Trash.delete egTwoSame "/home/user/file1.txt" [] none false).1 = true ∧
    (Trash.delete egSame1 "/home/user/duplicate.txt" [] none false).1 = true ∧
    egSame2.items.map (fun r => r.file_hash) = [.fileSha [3, 4]] ∧
    egSame2.items.length = 1 ∧
    fsLookup egSame2.fs "/home/user/duplicate.txt" = none ∧
    (egSame2.fs.filter (fun e => strIsPre (Trash.filesDir ++ "/") e.1)).length = 1 := by
  decide

/-! # Claim C4 -/

theorem undoItemStep_ops (acc : TrashState × Nat × List Msg) (d : Nat) :
    (Trash.undoItemStep acc d).1.ops = acc.1.ops := by
  rcases acc with ⟨st, n, msgs⟩
  unfold Trash.undoItemStep
  cases hf : st.items.find? (fun r => r.id == d) with
  | none => simp [hf]
  | some item =>
    simp only [hf]
    split
    · rfl
    · rfl

theorem undoItemFold_ops (details : List Nat) :
    ∀ acc, (details.foldl Trash.undoItemStep acc).1.ops = acc.1.ops := by
  induction details with
  | nil => intro acc; rfl
  | cons d rest ih => intro acc; rw [List.foldl_cons, ih, undoItemStep_ops]

theorem undoOpStep_ops (acc : TrashState × List Msg) (op : OperationRow) :
    (Trash.undoOpStep acc op).1.ops =
      acc.1.ops.map (fun o => if o.id == op.id then { o with undone := true } else o) := by
  rcases acc with ⟨st, msgs⟩
  unfold Trash.undoOpStep
  dsimp only
  split
  · rcases hfold : op.details.foldl Trash.undoItemStep (st, 0, []) with ⟨st1, n1, ms1⟩
    have h1 := undoItemFold_ops op.details (st, 0, [])
    rw [hfold] at h1
    dsimp at h1 ⊢
    rw [h1]
  · split
    · rfl
    · rfl

theorem undoFold_ops (sel : List OperationRow) :
    ∀ (st : TrashState) (msgs : List Msg),
      (sel.foldl Trash.undoOpStep (st, msgs)).1.ops =
        st.ops.map (markUndoneIfSelected sel) := by
  induction sel with
  | nil =>
    intro st msgs
    rw [show markUndoneIfSelected [] = fun o => o from funext (fun o => rfl),
      List.map_id']
    rfl
  | cons s rest ih =>
    intro st msgs
    rw [List.foldl_cons]
    rcases hstep : Trash.undoOpStep (st, msgs) s with ⟨st1, msgs1⟩
    have h1 := undoOpStep_ops (st, msgs) s
    rw [hstep] at h1
    dsimp at h1
    rw [ih st1 msgs1, h1, List.map_map]
    apply List.map_congr_left
    intro o _
    simp only [Function.comp]
    unfold markUndoneIfSelected
    cases hid : o.id == s.id
    · simp [hid, List.any_cons]
    · cases h2 : rest.any (fun s' => o.id == s'.id) <;>
        simp [hid, h2, List.any_cons]

theorem undoSelect_not_undone (st : TrashState) (count : Nat) :
    ∀ o ∈ Trash.undoSelect st count, o.undone = false := by
  intro o ho
  unfold Trash.undoSelect at ho
  have h1 := List.mem_of_mem_take ho
  rw [List.mem_insertionSort] at h1
  have h2 := List.mem_filter.mp h1
  simpa using h2.2

theorem undo_ops_formula (st : TrashState) (count : Nat) :
    (Trash.undo st count).1.ops =
      st.ops.map (markUndoneIfSelected (Trash.undoSelect st count)) := by
  unfold Trash.undo
  cases hsel : Trash.undoSelect st count with
  | nil =>
    simp only [hsel, List.isEmpty_nil, if_true]
    rw [show markUndoneIfSelected [] = fun o => o from funext (fun o => rfl),
      List.map_id']
  | cons s rest =>
    simp only [hsel, List.isEmpty_cons, Bool.false_eq_true, if_false]
    exact undoFold_ops (s :: rest) st []

/-- Claim C4 (amended): undo works on exactly the selected operations — the
most recent `count` rows with `undone = 0`, newest first — so a processed
operation was never undone before, and after the call the operation log is
the old log with precisely the selected rows flagged undone (nothing else in
the log changes, and already-undone rows are never re-examined).  In
particular, after deleting `a.txt` and then `b.txt` with different content
hashes (so that the second delete is not deduplicated), `undo(1)` moves only
`b.txt` back to its original path and marks only the newer operation undone,
while `a.txt` stays in the holding area with `restored = 0`. -/
theorem C4_undo_lifo :
    (∀ st count, (∀ o ∈ Trash.undoSelect st count, o.undone = false) ∧
      (Trash.undo st count).1.ops =
        st.ops.map (markUndoneIfSelected (Trash.undoSelect st count))) ∧
    ((Trash.delete (abAfterA [1] [2]) "/home/user/b.txt" [] none false).1 = true ∧
     fsLookup (Trash.undo (abAfterB [1] [2]) 1).1.fs "/home/user/b.txt" =
       some (.file [2] true true) ∧
     fsLookup (Trash.undo (abAfterB [1] [2]) 1).1.fs "/home/user/a.txt" = none ∧
     (Trash.undo (abAfterB [1] [2]) 1).1.items.map
       (fun r => (r.original_path, r.restored)) =
       [("/home/user/a.txt", false), ("/home/user/b.txt", true)] ∧
     fsLookup (Trash.undo (abAfterB [1] [2]) 1).1.fs
       (Trash.filesDir ++ "/1/a.txt") = some (.file [1] true true) ∧
     (Trash.undo (abAfterB [1] [2]) 1).1.ops.map (fun o => o.undone) = [false, true]) :=
  ⟨fun st count => ⟨undoSelect_not_undone st count, undo_ops_formula st count⟩, by decide⟩

/-- Claim C4, counterexample to the claim as stated: when `a.txt` and `b.txt`
hold byte-identical content, the second delete also succeeds (it is the
dedup path, which logs no operation), so `undo(1)` undoes the deletion of
`a.txt` instead: `b.txt` does not reappear at its original path — it was
unlinked for good — while `a.txt` comes back. -/
theorem C4_counterexample :
    (Trash.delete (abAfterA [9] [9]) "/home/user/b.txt" [] none false).1 = true ∧
    fsLookup (Trash.undo (abAfterB [9] [9]) 1).1.fs "/home/user/b.txt" = none ∧
    fsLookup (Trash.undo (abAfterB [9] [9]) 1).1.fs "/home/user/a.txt" =
      some (.file [9] true true) ∧
    (Trash.undo (abAfterB [9] [9]) 1).1.items.map
      (fun r => (r.original_path, r.restored)) = [("/home/user/a.txt", true)] := by
  decide

/-- Claim C4, witness: in `egMixed` the single non-undone operation is
selected by `undo(1)`, and it indeed has `undone = false`. -/
theorem C4_witness :
    ({ id := 1, operation_type := "delete", timestamp := 20, details := [2],
       undone := false } : OperationRow).undone = false :=
  (C4_undo_lifo.1 egMixed 1).1
    { id := 1, operation_type := "delete", timestamp := 20, details := [2],
      undone := false }
    (by decide)

/-! # Claim C8 -/

theorem purgeStep_ops (acc : TrashState × Nat) (item : TrashRow) :
    (Trash.purgeStep acc item).1.ops = acc.1.ops := by
  rcases acc with ⟨st, n⟩
  rfl

theorem purgeFold_ops (sel : List TrashRow) :
    ∀ acc, (sel.foldl Trash.purgeStep acc).1.ops = acc.1.ops := by
  induction sel with
  | nil => intro acc; rfl
  | cons s rest ih => intro acc; rw [List.foldl_cons, ih, purgeStep_ops]

theorem purgeRun_ops (st : TrashState) (sel : List TrashRow) (d : Bool) :
    (Trash.purgeRun st sel d).1.ops = st.ops := by
  unfold Trash.purgeRun
  split
  · rfl
  · split
    · rfl
    · rcases hfold : sel.foldl Trash.purgeStep (st, 0) with ⟨st1, n1⟩
      have h1 := purgeFold_ops sel (st, 0)
      rw [hfold] at h1
      dsimp at h1 ⊢
      exact h1

theorem purge_ops (st : TrashState) (o q : Option Nat) (d : Bool) :
    (Trash.purge st o q d).1.ops = st.ops := by
  unfold Trash.purge
  split
  · exact purgeRun_ops ..
  · split
    · dsimp only
      split
      · rfl
      · exact purgeRun_ops ..
    · rfl

theorem restoreStep_ops (out : Option String) (d : Bool)
    (acc : TrashState × Nat × List Msg) (item : TrashRow) :
    (Trash.restoreStep out d acc item).1.ops = acc.1.ops := by
  rcases acc with ⟨st, n, msgs⟩
  unfold Trash.restoreStep
  dsimp only
  split
  · rfl
  · split
    · rfl
    · split
      · rfl
      · rfl

theorem restoreFold_ops (out : Option String) (d : Bool) (ms : List TrashRow) :
    ∀ acc, (ms.foldl (Trash.restoreStep out d) acc).1.ops = acc.1.ops := by
  induction ms with
  | nil => intro acc; rfl
  | cons m rest ih => intro acc; rw [List.foldl_cons, ih, restoreStep_ops]

theorem restore_ops (st : TrashState) (pat : Option String) (out : Option String)
    (d inter : Bool) : (Trash.restore st pat out d inter).2.1.ops = st.ops := by
  unfold Trash.restore
  split
  · rfl
  · split
    · rfl
    · rename_i pt
      dsimp only
      split
      · rfl
      · rcases hfold : List.foldl (Trash.restoreStep out d) (st, 0, [])
            (Trash.restoreMatches st pt) with ⟨st1, n1, ms1⟩
        have h1 := restoreFold_ops out d (Trash.restoreMatches st pt) (st, 0, [])
        rw [hfold] at h1
        dsimp at h1 ⊢
        exact h1

theorem empty_ops (st : TrashState) (f d c : Bool) :
    (Trash.empty st f d c).1.ops = st.ops := by
  unfold Trash.empty
  dsimp only
  repeat' first | rfl | split

theorem verify_ops (st : TrashState) (rep : Bool) :
    (Trash.verify st rep).1.ops = st.ops := rfl

theorem undo_ops_record (st : TrashState) (n : Nat) :
    (Trash.undo st n).1.ops.map opRecord = st.ops.map opRecord := by
  rw [undo_ops_formula, List.map_map]
  apply List.map_congr_left
  intro o _
  simp only [Function.comp]
  unfold markUndoneIfSelected opRecord
  split
  · rfl
  · rfl

theorem delete_ops_cases (st : TrashState) (p : String) (tags : List String)
    (reason : Option String) (d : Bool) :
    (Trash.delete st p tags reason d).2.1.ops = st.ops ∨
    ((Trash.delete st p tags reason d).1 = true ∧ d = false ∧
     (Trash.delete st p tags reason d).2.1.items.length = st.items.length + 1 ∧
     (Trash.delete st p tags reason d).2.1.ops =
       st.ops ++ [{ id := st.nextOpId, operation_type := "delete",
                    timestamp := st.now, details := [st.uuid + 1], undone := false }]) := by
  unfold Trash.delete
  split
  · left; rfl
  · split
    · left; rfl
    · split
      · left; rfl
      · dsimp only
        split
        · split
          · left; rfl
          · left; rfl
        · split
          · left; rfl
          · next hdry =>
            right
            refine ⟨rfl, ?_, ?_, rfl⟩
            · simpa using hdry
            · simp

/-- Claim C8: an operation-log record is appended only by a successful,
non-dry-run, non-deduplicated delete (the disjunct that appends also returns
true, has `dry_run = false`, and inserts exactly one catalog row), and the
appended record has `operation_type = "delete"`; purge, empty, restore and
verify leave the log untouched, and undo changes nothing but the `undone`
flags of existing records. -/
theorem C8_oplog_only_delete (st : TrashState) :
    (∀ p tags reason d,
      (Trash.delete st p tags reason d).2.1.ops = st.ops ∨
      ((Trash.delete st p tags reason d).1 = true ∧ d = false ∧
       (Trash.delete st p tags reason d).2.1.items.length = st.items.length + 1 ∧
       (Trash.delete st p tags reason d).2.1.ops =
         st.ops ++ [{ id := st.nextOpId, operation_type := "delete",
                      timestamp := st.now, details := [st.uuid + 1],
                      undone := false }])) ∧
    (∀ o q d, (Trash.purge st o q d).1.ops = st.ops) ∧
    (∀ f d c, (Trash.empty st f d c).1.ops = st.ops) ∧
    (∀ pat out d i, (Trash.restore st pat out d i).2.1.ops = st.ops) ∧
    (∀ rep, (Trash.verify st rep).1.ops = st.ops) ∧
    (∀ n, (Trash.undo st n).1.ops.map opRecord = st.ops.map opRecord) :=
  ⟨fun p tags reason d => delete_ops_cases st p tags reason d,
   fun o q d => purge_ops st o q d,
   fun f d c => empty_ops st f d c,
   fun pat out d i => restore_ops st pat out d i,
   fun rep => verify_ops st rep,
   fun n => undo_ops_record st n⟩

/-! # Claim C9 -/

theorem restore_single_target_exists (st : TrashState) (pat : String)
    (out : Option String) (r : TrashRow)
    (hm : Trash.restoreMatches st pat = [r])
    (ht : (fsLookup st.fs (Trash.targetOf out r)).isSome = true) :
    Trash.restore st (some pat) out false false =
      (0, st, [Msg.warnTargetExists (Trash.targetOf out r)]) := by
  unfold Trash.restore
  simp only [hm, Bool.false_eq_true, if_false, List.isEmpty_cons, List.foldl_cons,
    List.foldl_nil]
  unfold Trash.restoreStep
  simp only [ht, Bool.false_eq_true, if_false, if_true]
  rfl

/-- Claim C9: restore refuses to overwrite — when the single matching item
has an occupied target path it is skipped with a warning, nothing moves and
its row stays unrestored — whereas undo moves an item back without any
existence check on the original path: in `egConflict` the file `[6]` now
living at `/home/user/doc.txt` is replaced by the trashed content `[5]`, and
the row is marked restored. -/
theorem C9_undo_overwrites_restore_skips :
    (∀ (st : TrashState) (pat : String) (out : Option String) (r : TrashRow),
      Trash.restoreMatches st pat = [r] →
      (fsLookup st.fs (Trash.targetOf out r)).isSome = true →
      Trash.restore st (some pat) out false false =
        (0, st, [Msg.warnTargetExists (Trash.targetOf out r)])) ∧
    (fsLookup egConflict.fs "/home/user/doc.txt" = some (.file [6] true true) ∧
     fsLookup (Trash.undo egConflict 1).1.fs "/home/user/doc.txt" =
       some (.file [5] true true) ∧
     fsLookup (Trash.undo egConflict 1).1.fs (Trash.filesDir ++ "/7/doc.txt") = none ∧
     (Trash.undo egConflict 1).1.items.map (fun r => r.restored) = [true]) :=
  ⟨restore_single_target_exists, by decide⟩

/-- Claim C9, witness: on the same conflicted state, restore with a matching
pattern skips the item and leaves the state untouched. -/
theorem C9_witness :
    Trash.restore egConflict (some "doc") none false false =
      (0, egConflict, [Msg.warnTargetExists "/home/user/doc.txt"]) :=
  C9_undo_overwrites_restore_skips.1 egConflict "doc" none egConflictRow
    (by decide) (by decide)

/-! # Claim C10 -/

theorem find?_filter_of_imp {α} (q keep : α → Bool) :
    ∀ l : List α, (∀ x ∈ l, q x = true → keep x = true) →
      (l.filter keep).find? q = l.find? q := by
  intro l
  induction l with
  | nil => intro _; rfl
  | cons x xs ih =>
    intro h
    have hxs := fun a ha => h a (List.mem_cons_of_mem x ha)
    cases hq : q x with
    | true =>
      have hk := h x (List.mem_cons_self x xs) hq
      simp [List.filter_cons, hk, List.find?_cons, hq]
    | false =>
      cases hk : keep x with
      | true => simp [List.filter_cons, hk, List.find?_cons, hq, ih hxs]
      | false => simp [List.filter_cons, hk, List.find?_cons, hq, ih hxs]

theorem find?_map_comm {α} (f : α → α) (q : α → Bool)
    (hq : ∀ x, q (f x) = q x) :
    ∀ l : List α, (l.map f).find? q = (l.find? q).map f := by
  intro l
  induction l with
  | nil => rfl
  | cons x xs ih =>
    cases hqx : q x with
    | true => simp [List.map_cons, List.find?_cons, hq, hqx]
    | false => simp [List.map_cons, List.find?_cons, hq, hqx, ih]

theorem find?_append_left {α} (q : α → Bool) :
    ∀ (l₁ l₂ : List α) (a : α), l₁.find? q = some a → (l₁ ++ l₂).find? q = some a := by
  intro l₁ l₂ a h
  induction l₁ with
  | nil => cases h
  | cons x xs ih =>
    rw [List.cons_append]
    cases hq : q x with
    | true => rw [List.find?_cons_of_pos _ hq] at h ⊢; exact h
    | false =>
      rw [List.find?_cons_of_neg _ (by simp [hq])] at h ⊢
      exact ih h

theorem setRestored_eq_self (r : TrashRow) (h : r.restored = true) :
    ({ r with restored := true } : TrashRow) = r := by
  cases r
  simp_all

theorem rowById_unique (st : TrashState) (hids : (st.items.map (fun r => r.id)).Nodup)
    (i : Nat) (r : TrashRow) (hfind : rowById st.items i = some r) :
    ∀ x ∈ st.items, x.id = i → x = r := by
  intro x hx hxi
  have hr := List.mem_of_find?_eq_some hfind
  have hq := List.find?_some hfind
  have hri : r.id = i := by simpa using hq
  exact List.inj_on_of_nodup_map hids hx hr (by rw [hxi, hri])

theorem delete_rowById (st : TrashState) (i : Nat) (r : TrashRow)
    (hfind : rowById st.items i = some r) (p : String) (tags : List String)
    (reason : Option String) (d : Bool) :
    rowById (Trash.delete st p tags reason d).2.1.items i = some r := by
  unfold Trash.delete
  split
  · exact hfind
  · split
    · exact hfind
    · split
      · exact hfind
      · dsimp only
        split
        · split
          · exact hfind
          · exact hfind
        · split
          · exact hfind
          · unfold rowById at hfind ⊢
            exact find?_append_left _ _ _ _ hfind

theorem restoreStep_rowById (out : Option String) (d : Bool) (i : Nat)
    (r m : TrashRow) (hri : r.id = i) (hmi : m.id ≠ i)
    (acc : TrashState × Nat × List Msg)
    (hacc : rowById acc.1.items i = some r) :
    rowById (Trash.restoreStep out d acc m).1.items i = some r := by
  rcases acc with ⟨st1, n, msgs⟩
  unfold Trash.restoreStep
  dsimp only at hacc ⊢
  split
  · exact hacc
  · split
    · exact hacc
    · split
      · dsimp only
        unfold rowById at hacc ⊢
        rw [find?_filter_of_imp _ _ _ (fun x _ hx => ?_)]
        · exact hacc
        · have hxi : x.id = i := by simpa using hx
          simp [hxi, Ne.symm hmi]
      · dsimp only
        unfold rowById at hacc ⊢
        rw [find?_map_comm _ _ (fun x => ?_) st1.items]
        · rw [hacc]
          have hfr : (if (r.id == m.id) = true
              then ({ r with restored := true } : TrashRow) else r) = r := by
            have : (r.id == m.id) = false := by simp [hri, Ne.symm hmi]
            simp [this]
          simp only [Option.map_some']
          rw [hfr]
        · cases hxm : x.id == m.id <;> simp [hxm]

theorem restoreFold_rowById (out : Option String) (d : Bool) (i : Nat)
    (r : TrashRow) (hri : r.id = i) :
    ∀ ms : List TrashRow, (∀ m ∈ ms, m.id ≠ i) →
      ∀ acc, rowById acc.1.items i = some r →
        rowById ((ms.foldl (Trash.restoreStep out d) acc)).1.items i = some r := by
  intro ms
  induction ms with
  | nil => intro _ acc hacc; exact hacc
  | cons m rest ih =>
    intro hms acc hacc
    rw [List.foldl_cons]
    exact ih (fun x hx => hms x (List.mem_cons_of_mem m hx))
      _ (restoreStep_rowById out d i r m hri (hms m (List.mem_cons_self m rest)) acc hacc)

theorem restore_rowById (st : TrashState)
    (hids : (st.items.map (fun r => r.id)).Nodup) (i : Nat) (r : TrashRow)
    (hfind : rowById st.items i = some r) (hres : r.restored = true)
    (pat out : Option String) (d inter : Bool) :
    rowById (Trash.restore st pat out d inter).2.1.items i = some r := by
  have hri : r.id = i := by simpa using List.find?_some hfind
  unfold Trash.restore
  split
  · exact hfind
  · split
    · exact hfind
    · rename_i pt
      dsimp only
      split
      · exact hfind
      · have hms : ∀ m ∈ Trash.restoreMatches st pt, m.id ≠ i := by
          intro m hm hmi
          have h1 : m ∈ st.items.filter
              (fun x => strContainsSub x.original_path pt && !x.restored) := by
            unfold Trash.restoreMatches at hm
            rwa [List.mem_insertionSort] at hm
          have h2 := List.mem_filter.mp h1
          have hmr : m = r := rowById_unique st hids i r hfind m h2.1 hmi
          rw [hmr, hres] at h2
          simp at h2
        have hres2 := restoreFold_rowById out d i r hri
          (Trash.restoreMatches st pt) hms (st, 0, []) hfind
        rcases hfold : List.foldl (Trash.restoreStep out d) (st, 0, [])
            (Trash.restoreMatches st pt) with ⟨st1, n1, ms1⟩
        rw [hfold] at hres2
        exact hres2

theorem purgeStep_rowById (i : Nat) (r s : TrashRow) (hsi : s.id ≠ i)
    (acc : TrashState × Nat) (hacc : rowById acc.1.items i = some r) :
    rowById (Trash.purgeStep acc s).1.items i = some r := by
  rcases acc with ⟨st1, n⟩
  unfold Trash.purgeStep
  dsimp only at hacc ⊢
  unfold rowById at hacc ⊢
  rw [find?_filter_of_imp _ _ _ (fun x _ hx => ?_)]
  · exact hacc
  · have hxi : x.id = i := by simpa using hx
    simp [hxi, Ne.symm hsi]

theorem purgeFold_rowById (i : Nat) (r : TrashRow) :
    ∀ sel : List TrashRow, (∀ s ∈ sel, s.id ≠ i) →
      ∀ acc, rowById acc.1.items i = some r →
        rowById ((sel.foldl Trash.purgeStep acc)).1.items i = some r := by
  intro sel
  induction sel with
  | nil => intro _ acc hacc; exact hacc
  | cons s rest ih =>
    intro hsel acc hacc
    rw [List.foldl_cons]
    exact ih (fun x hx => hsel x (List.mem_cons_of_mem s hx)) _
      (purgeStep_rowById i r s (hsel s (List.mem_cons_self s rest)) acc hacc)

theorem selectByQuota_subset :
    ∀ (rows : List TrashRow) (c q : Nat) (x : TrashRow),
      x ∈ Trash.selectByQuota rows c q → x ∈ rows := by
  intro rows
  induction rows with
  | nil => intro c q x hx; cases hx
  | cons h rest ih =>
    intro c q x hx
    unfold Trash.selectByQuota at hx
    by_cases hc : c ≤ q
    · rw [if_pos hc] at hx; cases hx
    · rw [if_neg hc] at hx
      rcases List.mem_cons.mp hx with h1 | h1
      · exact h1 ▸ List.mem_cons_self h rest
      · exact List.mem_cons_of_mem h (ih _ _ x h1)

theorem purgeRun_rowById (st : TrashState) (sel : List TrashRow) (d : Bool)
    (i : Nat) (r : TrashRow) (hsel : ∀ s ∈ sel, s.id ≠ i)
    (hfind : rowById st.items i = some r) :
    rowById (Trash.purgeRun st sel d).1.items i = some r := by
  unfold Trash.purgeRun
  split
  · exact hfind
  · split
    · exact hfind
    · rcases hfold : sel.foldl Trash.purgeStep (st, 0) with ⟨st1, n1⟩
      have h1 := purgeFold_rowById i r sel hsel (st, 0) hfind
      rw [hfold] at h1
      exact h1

theorem purge_rowById (st : TrashState)
    (hids : (st.items.map (fun r => r.id)).Nodup) (i : Nat) (r : TrashRow)
    (hfind : rowById st.items i = some r) (hres : r.restored = true)
    (o q : Option Nat) (d : Bool) :
    rowById (Trash.purge st o q d).1.items i = some r := by
  have hne : ∀ s ∈ st.items, s.restored = false → s.id ≠ i := by
    intro s hs hsr hsi
    have := rowById_unique st hids i r hfind s hs hsi
    rw [this, hres] at hsr
    cases hsr
  unfold Trash.purge
  split
  · apply purgeRun_rowById st _ d i r _ hfind
    intro s hs
    unfold Trash.ageSelect at hs
    rw [List.mem_insertionSort] at hs
    have h2 := List.mem_filter.mp hs
    refine hne s h2.1 ?_
    have := h2.2
    simp at this
    exact this.2
  · split
    · dsimp only
      split
      · exact hfind
      · apply purgeRun_rowById st _ d i r _ hfind
        intro s hs
        have h1 := selectByQuota_subset _ _ _ s hs
        unfold Trash.quotaRows at h1
        rw [List.mem_insertionSort] at h1
        have h2 := List.mem_filter.mp h1
        refine hne s h2.1 ?_
        simpa using h2.2
    · exact hfind

theorem empty_rowById (st : TrashState)
    (hids : (st.items.map (fun r => r.id)).Nodup) (i : Nat) (r : TrashRow)
    (hfind : rowById st.items i = some r) (hres : r.restored = true)
    (f d c : Bool) :
    rowById (Trash.empty st f d c).1.items i = some r := by
  unfold Trash.empty
  dsimp only
  split
  · exact hfind
  · split
    · exact hfind
    · split
      · exact hfind
      · unfold rowById at hfind ⊢
        rw [find?_filter_of_imp _ _ _ (fun x hx hq => ?_)]
        · exact hfind
        · have hxi : x.id = i := by simpa using hq
          rw [rowById_unique st hids i r hfind x hx hxi]
          exact hres

theorem undoItemStep_rowById (i : Nat) (r : TrashRow) (hri : r.id = i)
    (hres : r.restored = true) (d : Nat) (acc : TrashState × Nat × List Msg)
    (hacc : rowById acc.1.items i = some r) :
    rowById (Trash.undoItemStep acc d).1.items i = some r := by
  rcases acc with ⟨st1, n, msgs⟩
  unfold Trash.undoItemStep
  dsimp only at hacc ⊢
  cases hf : st1.items.find? (fun x => x.id == d) with
  | none => simp only [hf]; exact hacc
  | some item =>
    simp only [hf]
    split
    · exact hacc
    · dsimp only
      unfold rowById at hacc ⊢
      rw [find?_map_comm _ _ (fun x => ?_) st1.items]
      · rw [hacc]
        simp only [Option.map_some']
        have hfr : (if (r.id == d) = true
            then ({ r with restored := true } : TrashRow) else r) = r := by
          cases hrd : r.id == d with
          | false => simp
          | true => simp [setRestored_eq_self r hres]
        rw [hfr]
      · cases hxd : x.id == d <;> simp [hxd]

theorem undoItemFold_rowById (i : Nat) (r : TrashRow) (hri : r.id = i)
    (hres : r.restored = true) :
    ∀ (details : List Nat) acc, rowById acc.1.items i = some r →
      rowById ((details.foldl Trash.undoItemStep acc)).1.items i = some r := by
  intro details
  induction details with
  | nil => intro acc hacc; exact hacc
  | cons d rest ih =>
    intro acc hacc
    rw [List.foldl_cons]
    exact ih _ (undoItemStep_rowById i r hri hres d acc hacc)

theorem undoOpStep_rowById (i : Nat) (r : TrashRow) (hri : r.id = i)
    (hres : r.restored = true) (op : OperationRow) (acc : TrashState × List Msg)
    (hacc : rowById acc.1.items i = some r) :
    rowById (Trash.undoOpStep acc op).1.items i = some r := by
  rcases acc with ⟨st1, msgs⟩
  unfold Trash.undoOpStep
  dsimp only at hacc ⊢
  split
  · rcases hfold : op.details.foldl Trash.undoItemStep (st1, 0, []) with ⟨st2, n2, ms2⟩
    have h1 := undoItemFold_rowById i r hri hres op.details (st1, 0, []) hacc
    rw [hfold] at h1
    exact h1
  · split
    · exact hacc
    · exact hacc

theorem undoFold_rowById (i : Nat) (r : TrashRow) (hri : r.id = i)
    (hres : r.restored = true) :
    ∀ (sel : List OperationRow) acc, rowById acc.1.items i = some r →
      rowById ((sel.foldl Trash.undoOpStep acc)).1.items i = some r := by
  intro sel
  induction sel with
  | nil => intro acc hacc; exact hacc
  | cons s rest ih =>
    intro acc hacc
    rw [List.foldl_cons]
    exact ih _ (undoOpStep_rowById i r hri hres s acc hacc)

theorem undo_rowById (st : TrashState) (i : Nat) (r : TrashRow)
    (hfind : rowById st.items i = some r) (hres : r.restored = true) (n : Nat) :
    rowById (Trash.undo st n).1.items i = some r := by
  have hri : r.id = i := by simpa using List.find?_some hfind
  unfold Trash.undo
  dsimp only
  split
  · exact hfind
  · exact undoFold_rowById i r hri hres (Trash.undoSelect st n) (st, []) hfind

theorem verify_rowById (st : TrashState)
    (hids : (st.items.map (fun r => r.id)).Nodup) (i : Nat) (r : TrashRow)
    (hfind : rowById st.items i = some r) (hres : r.restored = true)
    (rep : Bool) :
    rowById (Trash.verify st rep).1.items i = some r := by
  unfold Trash.verify
  dsimp only
  split
  · unfold rowById at hfind ⊢
    rw [find?_filter_of_imp _ _ _ (fun x hx hq => ?_)]
    · exact hfind
    · have hxi : x.id = i := by simpa using hq
      have hxr := rowById_unique st hids i r hfind x hx hxi
      subst hxr
      rw [Bool.not_eq_true']
      rw [List.any_eq_false]
      intro m hm
      have hm1 := (List.mem_filter.mp hm).1
      have hm2 := List.mem_filter.mp hm1
      cases hmx : m.id == x.id with
      | false => simp
      | true =>
        exfalso
        have hmi : m.id = i := by
          have hmx2 : m.id = x.id := by simpa using hmx
          rw [hmx2, hxi]
        have hmr := rowById_unique st hids i x hfind m hm2.1 hmi
        have hb := hm2.2
        rw [hmr, hres] at hb
        simpa using hb
  · exact hfind

theorem rowsFromSetTrue_refl (l : List TrashRow) : rowsFromSetTrue l l :=
  fun r' h => Or.inl h

theorem rowsFromSetTrue_trans {l l' l'' : List TrashRow}
    (h1 : rowsFromSetTrue l l') (h2 : rowsFromSetTrue l' l'') :
    rowsFromSetTrue l l'' := by
  intro r' hr'
  rcases h2 r' hr' with h | ⟨x, hx, hxr, rfl⟩
  · exact h1 r' h
  · rcases h1 x hx with h | ⟨y, hy, hyr, rfl⟩
    · exact Or.inr ⟨x, h, hxr, rfl⟩
    · cases hxr

theorem rowsFromSetTrue_filter (l : List TrashRow) (keep : TrashRow → Bool) :
    rowsFromSetTrue l (l.filter keep) :=
  fun r' h => Or.inl (List.mem_of_mem_filter h)

theorem rowsFromSetTrue_markId (l : List TrashRow) (id0 : Nat) :
    rowsFromSetTrue l
      (l.map (fun x => if x.id == id0 then { x with restored := true } else x)) := by
  intro r' hr'
  rcases List.mem_map.mp hr' with ⟨x, hx, rfl⟩
  cases hid : x.id == id0 with
  | false => simp only [hid, Bool.false_eq_true, if_false]; exact Or.inl hx
  | true =>
    simp only [hid, if_true]
    cases hxr : x.restored with
    | true => rw [setRestored_eq_self x hxr]; exact Or.inl hx
    | false => exact Or.inr ⟨x, hx, hxr, rfl⟩

theorem restoreStep_rowsFrom (out : Option String) (d : Bool)
    (acc : TrashState × Nat × List Msg) (m : TrashRow) :
    rowsFromSetTrue acc.1.items (Trash.restoreStep out d acc m).1.items := by
  rcases acc with ⟨st1, n, msgs⟩
  unfold Trash.restoreStep
  dsimp only
  split
  · exact rowsFromSetTrue_refl _
  · split
    · exact rowsFromSetTrue_refl _
    · split
      · exact rowsFromSetTrue_filter _ _
      · exact rowsFromSetTrue_markId _ _

theorem restoreFold_rowsFrom (out : Option String) (d : Bool) :
    ∀ (ms : List TrashRow) acc,
      rowsFromSetTrue acc.1.items ((ms.foldl (Trash.restoreStep out d) acc)).1.items := by
  intro ms
  induction ms with
  | nil => intro acc; exact rowsFromSetTrue_refl _
  | cons m rest ih =>
    intro acc
    rw [List.foldl_cons]
    exact rowsFromSetTrue_trans (restoreStep_rowsFrom out d acc m) (ih _)

theorem restore_rowsFrom (st : TrashState) (pat out : Option String) (d inter : Bool) :
    rowsFromSetTrue st.items (Trash.restore st pat out d inter).2.1.items := by
  unfold Trash.restore
  split
  · exact rowsFromSetTrue_refl _
  · split
    · exact rowsFromSetTrue_refl _
    · rename_i pt
      dsimp only
      split
      · exact rowsFromSetTrue_refl _
      · have h1 := restoreFold_rowsFrom out d (Trash.restoreMatches st pt) (st, 0, [])
        rcases hfold : List.foldl (Trash.restoreStep out d) (st, 0, [])
            (Trash.restoreMatches st pt) with ⟨st1, n1, ms1⟩
        rw [hfold] at h1
        exact h1

theorem undoItemStep_rowsFrom (acc : TrashState × Nat × List Msg) (d : Nat) :
    rowsFromSetTrue acc.1.items (Trash.undoItemStep acc d).1.items := by
  rcases acc with ⟨st1, n, msgs⟩
  unfold Trash.undoItemStep
  dsimp only
  cases hf : st1.items.find? (fun x => x.id == d) with
  | none => simp only [hf]; exact rowsFromSetTrue_refl _
  | some item =>
    simp only [hf]
    split
    · exact rowsFromSetTrue_refl _
    · exact rowsFromSetTrue_markId _ _

theorem undoItemFold_rowsFrom :
    ∀ (details : List Nat) acc,
      rowsFromSetTrue acc.1.items
        ((details.foldl Trash.undoItemStep acc)).1.items := by
  intro details
  induction details with
  | nil => intro acc; exact rowsFromSetTrue_refl _
  | cons d rest ih =>
    intro acc
    rw [List.foldl_cons]
    exact rowsFromSetTrue_trans (undoItemStep_rowsFrom acc d) (ih _)

theorem undoOpStep_rowsFrom (acc : TrashState × List Msg) (op : OperationRow) :
    rowsFromSetTrue acc.1.items (Trash.undoOpStep acc op).1.items := by
  rcases acc with ⟨st1, msgs⟩
  unfold Trash.undoOpStep
  dsimp only
  split
  · have h1 := undoItemFold_rowsFrom op.details (st1, 0, [])
    rcases hfold : op.details.foldl Trash.undoItemStep (st1, 0, []) with ⟨st2, n2, ms2⟩
    rw [hfold] at h1
    exact h1
  · split
    · exact rowsFromSetTrue_refl _
    · exact rowsFromSetTrue_refl _

theorem undoFold_rowsFrom :
    ∀ (sel : List OperationRow) acc,
      rowsFromSetTrue acc.1.items ((sel.foldl Trash.undoOpStep acc)).1.items := by
  intro sel
  induction sel with
  | nil => intro acc; exact rowsFromSetTrue_refl _
  | cons s rest ih =>
    intro acc
    rw [List.foldl_cons]
    exact rowsFromSetTrue_trans (undoOpStep_rowsFrom acc s) (ih _)

theorem undo_rowsFrom (st : TrashState) (n : Nat) :
    rowsFromSetTrue st.items (Trash.undo st n).1.items := by
  unfold Trash.undo
  dsimp only
  split
  · exact rowsFromSetTrue_refl _
  · exact undoFold_rowsFrom (Trash.undoSelect st n) (st, [])

/-- Claim C10: the restored flag is monotone.  For a state whose row ids are
distinct, any row that is already restored survives every operation — delete,
restore, purge, empty, undo and verify — unchanged and still restored (no
operation ever sets a restored item back to non-restored); and the only
in-place update restore and undo perform on any row is setting the flag from
false to true (`rowsFromSetTrue`). -/
theorem C10_restored_monotone (st : TrashState)
    (hids : (st.items.map (fun r => r.id)).Nodup) (i : Nat) (r : TrashRow)
    (hfind : rowById st.items i = some r) (hres : r.restored = true) :
    (∀ p tags reason d,
      rowById (Trash.delete st p tags reason d).2.1.items i = some r) ∧
    (∀ pat out d inter,
      rowById (Trash.restore st pat out d inter).2.1.items i = some r) ∧
    (∀ o q d, rowById (Trash.purge st o q d).1.items i = some r) ∧
    (∀ f d c, rowById (Trash.empty st f d c).1.items i = some r) ∧
    (∀ n, rowById (Trash.undo st n).1.items i = some r) ∧
    (∀ rep, rowById (Trash.verify st rep).1.items i = some r) ∧
    (∀ pat out d inter,
      rowsFromSetTrue st.items (Trash.restore st pat out d inter).2.1.items) ∧
    (∀ n, rowsFromSetTrue st.items (Trash.undo st n).1.items) :=
  ⟨fun p tags reason d => delete_rowById st i r hfind p tags reason d,
   fun pat out d inter => restore_rowById st hids i r hfind hres pat out d inter,
   fun o q d => purge_rowById st hids i r hfind hres o q d,
   fun f d c => empty_rowById st hids i r hfind hres f d c,
   fun n => undo_rowById st i r hfind hres n,
   fun rep => verify_rowById st hids i r hfind hres rep,
   fun pat out d inter => restore_rowsFrom st pat out d inter,
   fun n => undo_rowsFrom st n⟩

/-- Claim C10, witness: in `egMixed` the restored row with id 1 survives the
destructive `empty` untouched and still restored. -/
theorem C10_witness :
    rowById (Trash.empty egMixed true false false).1.items 1 = some egDoneRow :=
  (C10_restored_monotone egMixed (by decide) 1 egDoneRow rfl rfl).2.2.2.1
    true false false

/-! # Claim C5 -/

theorem selectByQuota_spec :
    ∀ (rows : List TrashRow) (cur quota : Nat),
      ∃ k, Trash.selectByQuota rows cur quota = rows.take k ∧
        (cur - ((rows.take k).map (fun r => r.file_size)).sum ≤ quota ∨
          rows.take k = rows) := by
  intro rows
  induction rows with
  | nil =>
    intro cur quota
    exact ⟨0, rfl, Or.inr rfl⟩
  | cons r rest ih =>
    intro cur quota
    unfold Trash.selectByQuota
    by_cases hc : cur ≤ quota
    · refine ⟨0, by rw [if_pos hc]; rfl, Or.inl ?_⟩
      simpa using hc
    · obtain ⟨k, hsel, hbound⟩ := ih (cur - r.file_size) quota
      refine ⟨k + 1, ?_, ?_⟩
      · rw [if_neg hc, hsel]
        rfl
      · rcases hbound with h | h
        · left
          rw [List.take_succ_cons, List.map_cons, List.sum_cons, ← Nat.sub_sub]
          exact h
        · right
          rw [List.take_succ_cons, h]

theorem purgeStep_items (acc : TrashState × Nat) (s : TrashRow) :
    (Trash.purgeStep acc s).1.items = acc.1.items.filter (fun r => !(r.id == s.id)) := by
  rcases acc with ⟨st1, n⟩
  rfl

theorem purgeFold_items (sel : List TrashRow) :
    ∀ acc, ((sel.foldl Trash.purgeStep acc)).1.items =
      acc.1.items.filter (fun x => !(sel.any (fun s => x.id == s.id))) := by
  induction sel with
  | nil =>
    intro acc
    rw [List.foldl_nil]
    exact (List.filter_eq_self.mpr (fun a _ => rfl)).symm
  | cons s rest ih =>
    intro acc
    rw [List.foldl_cons, ih, purgeStep_items, List.filter_filter]
    apply List.filter_congr
    intro x _
    simp [List.any_cons, Bool.and_comm]

theorem filter_comm_bool {α} (l : List α) (p q : α → Bool) :
    (l.filter p).filter q = (l.filter q).filter p := by
  rw [List.filter_filter, List.filter_filter]
  apply List.filter_congr
  intro a _
  exact Bool.and_comm (q a) (p a)

theorem filter_not_mem_ids_append (l₁ l₂ : List TrashRow)
    (hnd : ((l₁ ++ l₂).map (fun r => r.id)).Nodup) :
    (l₁ ++ l₂).filter (fun x => !(l₁.any (fun s => x.id == s.id))) = l₂ := by
  rw [List.map_append] at hnd
  have hdisj := (List.nodup_append.mp hnd).2.2
  rw [List.filter_append]
  have h1 : l₁.filter (fun x => !(l₁.any (fun s => x.id == s.id))) = [] := by
    apply List.filter_eq_nil_iff.mpr
    intro a ha h
    rw [Bool.not_eq_true'] at h
    have hany : l₁.any (fun s => a.id == s.id) = true :=
      List.any_eq_true.mpr ⟨a, ha, by simp⟩
    rw [hany] at h
    cases h
  have h2 : l₂.filter (fun x => !(l₁.any (fun s => x.id == s.id))) = l₂ := by
    apply List.filter_eq_self.mpr
    intro a ha
    rw [Bool.not_eq_true']
    rw [List.any_eq_false]
    intro s hs heq
    have heq2 : a.id = s.id := by simpa using heq
    exact hdisj (List.mem_map_of_mem (fun r => r.id) hs)
      (by rw [← heq2]; exact List.mem_map_of_mem (fun r => r.id) ha)
  rw [h1, h2, List.nil_append]

theorem sum_sizes_split (rows : List TrashRow) (k : Nat) :
    (rows.map (fun r => r.file_size)).sum =
      ((rows.take k).map (fun r => r.file_size)).sum +
        ((rows.drop k).map (fun r => r.file_size)).sum := by
  have h := congrArg (fun l : List TrashRow => (l.map (fun r => r.file_size)).sum)
    (List.take_append_drop k rows)
  dsimp at h
  rw [List.map_append, List.sum_append] at h
  omega

theorem quotaRows_ids_nodup (st : TrashState)
    (hids : (st.items.map (fun r => r.id)).Nodup) :
    ((Trash.quotaRows st).map (fun r => r.id)).Nodup := by
  have h1 : List.Sublist
      ((st.items.filter (fun r => !r.restored)).map (fun r => r.id))
      (st.items.map (fun r => r.id)) := (List.filter_sublist _).map _
  have h2 := hids.sublist h1
  have hperm := (List.perm_insertionSort timeLE
    (st.items.filter (fun r => !r.restored))).map (fun r => r.id)
  exact hperm.nodup_iff.mpr h2

theorem C5_dispatch (st : TrashState) (q : Nat) (hq : 1 ≤ q)
    (hlt : q * 1073741824 < Trash.nonRestoredSize st.items) :
    Trash.purge st none (some q) false =
      Trash.purgeRun st (Trash.selectByQuota (Trash.quotaRows st)
        (Trash.nonRestoredSize st.items) (q * 1073741824)) false := by
  unfold Trash.purge
  simp only [Option.getD_some, Option.getD_none]
  rw [if_neg (by simp)]
  rw [if_pos (by simp; omega)]
  rw [if_neg (by omega)]

theorem C5_dispatch_noop (st : TrashState) (q : Nat) (hq : 1 ≤ q)
    (hle : Trash.nonRestoredSize st.items ≤ q * 1073741824) :
    Trash.purge st none (some q) false =
      (st, [Msg.infoWithinQuota (Trash.nonRestoredSize st.items)]) := by
  unfold Trash.purge
  simp only [Option.getD_some, Option.getD_none]
  rw [if_neg (by simp)]
  rw [if_pos (by simp; omega)]
  rw [if_pos hle]

theorem C5_sel_ne (st : TrashState) (q : Nat)
    (hlt : q * 1073741824 < Trash.nonRestoredSize st.items) :
    Trash.selectByQuota (Trash.quotaRows st) (Trash.nonRestoredSize st.items)
      (q * 1073741824) ≠ [] := by
  cases hrows : Trash.quotaRows st with
  | nil =>
    exfalso
    have hperm : List.Perm (Trash.quotaRows st)
        (st.items.filter (fun r => !r.restored)) :=
      List.perm_insertionSort timeLE _
    rw [hrows] at hperm
    have hL : st.items.filter (fun r => !r.restored) = [] :=
      List.eq_nil_of_length_eq_zero (by simpa using hperm.length_eq.symm)
    unfold Trash.nonRestoredSize at hlt
    rw [hL] at hlt
    simp at hlt
  | cons x rest =>
    unfold Trash.selectByQuota
    rw [if_neg (by omega)]
    simp

theorem C5_result_items (st : TrashState) (q : Nat) (hq : 1 ≤ q)
    (hlt : q * 1073741824 < Trash.nonRestoredSize st.items) :
    (Trash.purge st none (some q) false).1.items =
      st.items.filter (fun x => !((Trash.selectByQuota (Trash.quotaRows st)
        (Trash.nonRestoredSize st.items) (q * 1073741824)).any
          (fun s => x.id == s.id))) := by
  rw [C5_dispatch st q hq hlt]
  unfold Trash.purgeRun
  rw [if_neg (by simpa [List.isEmpty_iff] using C5_sel_ne st q hlt)]
  rw [if_neg (by simp)]
  rcases hfold : (Trash.selectByQuota (Trash.quotaRows st)
      (Trash.nonRestoredSize st.items) (q * 1073741824)).foldl
      Trash.purgeStep (st, 0) with ⟨st1, n1⟩
  have h1 := purgeFold_items (Trash.selectByQuota (Trash.quotaRows st)
    (Trash.nonRestoredSize st.items) (q * 1073741824)) (st, 0)
  rw [hfold] at h1
  exact h1

theorem C5_size_bound (st : TrashState) (q : Nat) (hq : 1 ≤ q)
    (hids : (st.items.map (fun r => r.id)).Nodup)
    (hlt : q * 1073741824 < Trash.nonRestoredSize st.items) :
    Trash.nonRestoredSize (Trash.purge st none (some q) false).1.items ≤
      q * 1073741824 := by
  rw [C5_result_items st q hq hlt]
  obtain ⟨k, hsel, hbound⟩ := selectByQuota_spec (Trash.quotaRows st)
    (Trash.nonRestoredSize st.items) (q * 1073741824)
  rw [hsel]
  unfold Trash.nonRestoredSize
  rw [filter_comm_bool]
  have hdrop := filter_not_mem_ids_append ((Trash.quotaRows st).take k)
    ((Trash.quotaRows st).drop k)
    (by rw [List.take_append_drop]; exact quotaRows_ids_nodup st hids)
  rw [List.take_append_drop] at hdrop
  have hperm : List.Perm (Trash.quotaRows st)
      (st.items.filter (fun r => !r.restored)) :=
    List.perm_insertionSort timeLE _
  have hpermf := (hperm.filter
    (fun x => !(((Trash.quotaRows st).take k).any (fun s => x.id == s.id)))).symm
  have hsum : ((((st.items.filter (fun r => !r.restored)).filter
      (fun x => !(((Trash.quotaRows st).take k).any (fun s => x.id == s.id)))).map
        (fun r => r.file_size)).sum) =
      (((Trash.quotaRows st).drop k).map (fun r => r.file_size)).sum := by
    rw [(hpermf.map (fun r => r.file_size)).sum_eq]
    rw [hdrop]
  rw [hsum]
  have htot : (((Trash.quotaRows st)).map (fun r => r.file_size)).sum =
      Trash.nonRestoredSize st.items := by
    unfold Trash.nonRestoredSize
    exact (hperm.map (fun r => r.file_size)).sum_eq
  have hsplit := sum_sizes_split (Trash.quotaRows st) k
  rcases hbound with h | h
  · omega
  · have hlen : (Trash.quotaRows st).length ≤ k := by
      have := congrArg List.length h
      rw [List.length_take] at this
      omega
    rw [List.drop_eq_nil_of_le hlen]
    simp

theorem C5_ordering (st : TrashState) (q : Nat) (hq : 1 ≤ q)
    (hids : (st.items.map (fun r => r.id)).Nodup)
    (hlt : q * 1073741824 < Trash.nonRestoredSize st.items) :
    ∀ r' ∈ (Trash.purge st none (some q) false).1.items, r'.restored = false →
      ∀ p ∈ st.items, p.restored = false →
        p ∉ (Trash.purge st none (some q) false).1.items →
        p.deletion_time ≤ r'.deletion_time := by
  obtain ⟨k, hsel, hbound⟩ := selectByQuota_spec (Trash.quotaRows st)
    (Trash.nonRestoredSize st.items) (q * 1073741824)
  intro r' hr' hr'res p hp hpres hpnot
  rw [C5_result_items st q hq hlt, hsel] at hr' hpnot
  have hr'mem := List.mem_filter.mp hr'
  have hperm : List.Perm (Trash.quotaRows st)
      (st.items.filter (fun r => !r.restored)) :=
    List.perm_insertionSort timeLE _
  have hdrop := filter_not_mem_ids_append ((Trash.quotaRows st).take k)
    ((Trash.quotaRows st).drop k)
    (by rw [List.take_append_drop]; exact quotaRows_ids_nodup st hids)
  rw [List.take_append_drop] at hdrop
  have hr'L : r' ∈ (st.items.filter (fun r => !r.restored)).filter
      (fun x => !(((Trash.quotaRows st).take k).any (fun s => x.id == s.id))) :=
    List.mem_filter.mpr
      ⟨List.mem_filter.mpr ⟨hr'mem.1, by simp [hr'res]⟩, hr'mem.2⟩
  have hr'drop : r' ∈ (Trash.quotaRows st).drop k := by
    rw [← hdrop]
    exact ((hperm.filter _).mem_iff).mpr hr'L
  have hany : ((Trash.quotaRows st).take k).any (fun s => p.id == s.id) = true := by
    by_contra hne
    have hkeep : (!(((Trash.quotaRows st).take k).any (fun s => p.id == s.id))) = true := by
      cases h : ((Trash.quotaRows st).take k).any (fun s => p.id == s.id)
      · rfl
      · exact absurd h hne
    exact hpnot (List.mem_filter.mpr ⟨hp, hkeep⟩)
  obtain ⟨s, hs, hsid⟩ := List.any_eq_true.mp hany
  have hsid2 : p.id = s.id := by simpa using hsid
  have hsrows : s ∈ Trash.quotaRows st := List.mem_of_mem_take hs
  have hsitems : s ∈ st.items :=
    List.mem_of_mem_filter (hperm.mem_iff.mp hsrows)
  have hsp : s = p := List.inj_on_of_nodup_map hids hsitems hp hsid2.symm
  have hptake : p ∈ (Trash.quotaRows st).take k := hsp ▸ hs
  have hsorted : List.Sorted timeLE (Trash.quotaRows st) :=
    List.sorted_insertionSort timeLE _
  exact hsorted.rel_of_mem_take_of_mem_drop hptake hr'drop

/-- Claim C5 (amended): for quota-based purge with a nonzero whole-number
quota of Q gigabytes (with quota 0 the Python truthiness of `elif size_quota:`
rejects the call as if no policy were given): if the total size of
non-restored items is at most Q * 2^30 bytes the purge mutates nothing;
otherwise — every per-item removal succeeding, as none can fail in the model —
the surviving catalog is a sublist of the old one, its non-restored total size
is at most Q * 2^30, and every retained non-restored item is at least as
recently deleted as every purged one (oldest-first eviction). -/
theorem C5_quota_eviction (st : TrashState) (q : Nat) (hq : 1 ≤ q)
    (hids : (st.items.map (fun r => r.id)).Nodup) :
    (Trash.nonRestoredSize st.items ≤ q * 1073741824 →
      Trash.purge st none (some q) false =
        (st, [Msg.infoWithinQuota (Trash.nonRestoredSize st.items)])) ∧
    (q * 1073741824 < Trash.nonRestoredSize st.items →
      List.Sublist (Trash.purge st none (some q) false).1.items st.items ∧
      Trash.nonRestoredSize (Trash.purge st none (some q) false).1.items ≤
        q * 1073741824 ∧
      (∀ r' ∈ (Trash.purge st none (some q) false).1.items, r'.restored = false →
        ∀ p ∈ st.items, p.restored = false →
          p ∉ (Trash.purge st none (some q) false).1.items →
          p.deletion_time ≤ r'.deletion_time)) :=
  ⟨fun hle => C5_dispatch_noop st q hq hle,
   fun hlt =>
     ⟨by rw [C5_result_items st q hq hlt]; exact List.filter_sublist _,
      C5_size_bound st q hq hids hlt,
      C5_ordering st q hq hids hlt⟩⟩

/-- Claim C5, counterexample to the claim as stated: with quota Q = 0 and a
non-empty trash the claim demands eviction down to 0 bytes, but
`elif size_quota:` treats the quota 0.0 as unset, answers the "specify a
policy" error and removes nothing, leaving the non-restored total above the
quota. -/
theorem C5_counterexample :
    Trash.purge egQuota none (some 0) false = (egQuota, [Msg.errNoPolicy]) ∧
    0 * 1073741824 < Trash.nonRestoredSize egQuota.items ∧
    ¬ Trash.nonRestoredSize (Trash.purge egQuota none (some 0) false).1.items ≤
        0 * 1073741824 := by
  decide

/-- Claim C5, witness: purging `egQuota` (a 2^30-byte item deleted at time 10
and a 5-byte item deleted at time 20) with a 1 GB quota leaves a non-restored
total within the quota. -/
theorem C5_witness :
    Trash.nonRestoredSize (Trash.purge egQuota none (some 1) false).1.items ≤
      1 * 1073741824 :=
  ((C5_quota_eviction egQuota 1 (by decide) (by decide)).2 (by decide)).2.1

end Trsh
